import Mathlib

/-!
# w6w-editor — verification of the graph state engine

Shallow embedding of the workflow editor's graph state engine:

* `useWorkflowHistory` (undo/redo hook, `src/unnamed/part_006`),
* the `WorkflowEditor` component's mutation handlers
  (`src/packages/editor/src/components/WorkflowEditor.tsx`):
  `onNodesChange`, `handleInternalDelete`, `completePendingConnection`,
  `addNode`, `onConnect`, `autoArrange`,
* the `Canvas` component's `onConnect` validation pipeline and
  `completePendingConnection` (`src/packages/editor/src/components/Canvas.tsx`).

React state updates inside a single event handler are modelled as
sequential pure state transitions on an explicit state record; the
`currentStateRef` of the hook always holds the current `nodes`/`edges`,
so the embedding reads those fields directly.
-/

/-- 2-D position (`{x, y}`). Auto-arrange only ever produces integer
coordinates, so positions are modelled over `Int`. -/
structure Pos where
  x : Int
  y : Int
deriving DecidableEq, Repr

/-- Opaque node `data` map (`Record<string, unknown>`); the engine never
inspects it, only passes it through. -/
abbrev NodeData := List (String × String)

/-- A workflow node (`src/packages/editor/src/types/index.ts`). -/
structure Node where
  id : String
  type : Option String
  position : Pos
  data : NodeData
deriving DecidableEq, Repr

/-- A workflow edge (`src/packages/editor/src/types/index.ts`). -/
structure Edge where
  id : String
  source : String
  target : String
  sourceHandle : Option String := none
  targetHandle : Option String := none
deriving DecidableEq, Repr

/-- An undo/redo history entry: snapshot of `{nodes, edges}`
(`HistoryState` in `src/unnamed/part_006`). -/
structure HistoryState where
  nodes : List Node
  edges : List Edge
deriving DecidableEq, Repr

/-- Pending connection recorded when a handle-drag is dropped on empty
canvas (`PendingConnection` in `src/packages/editor/src/types/index.ts`). -/
structure PendingConnection where
  sourceNodeId : String
  sourceHandle : Option String := none
  position : Pos
deriving DecidableEq, Repr

/-- Full observable state of a `WorkflowEditor` session: the hook's
current nodes/edges and both history stacks, the component's
`isDraggingRef` and `pendingConnection`, plus instrumentation recording
each `onChange` payload (`emitted`) and each `console.warn` (`warnings`). -/
structure EditorState where
  nodes : List Node
  edges : List Edge
  past : List HistoryState
  future : List HistoryState
  maxHistory : Nat
  isDragging : Bool
  pending : Option PendingConnection
  emitted : List HistoryState
  warnings : Nat
deriving DecidableEq, Repr

namespace EditorState

/-- The current state as a history entry (`currentStateRef.current`). -/
def cur (s : EditorState) : HistoryState := ⟨s.nodes, s.edges⟩

end EditorState

/-- `pushToHistory`'s stack update (`src/unnamed/part_006` lines 80-92):
append the current state, then `slice(-maxHistorySize)` when over the
bound.  JS `slice(-0)` is `slice(0)` (the whole array), hence the
`max = 0` case keeps everything. -/
def pushTrim (max : Nat) (past : List HistoryState) (cur : HistoryState) :
    List HistoryState :=
  let newPast := past ++ [cur]
  if max < newPast.length then
    if max = 0 then newPast else newPast.drop (newPast.length - max)
  else newPast

/-- `pushToHistory` (`src/unnamed/part_006` lines 80-92): push the current
state onto `past` (bounded) and clear `future`. -/
def pushToHistory (s : EditorState) : EditorState :=
  { s with past := pushTrim s.maxHistory s.past s.cur, future := [] }

/-- `takeSnapshot` (`src/unnamed/part_006` lines 95-97). -/
def takeSnapshot (s : EditorState) : EditorState := pushToHistory s

/-- `setNodes` with history tracking (`src/unnamed/part_006` lines 100-103),
functional-update form. -/
def setNodesH (f : List Node → List Node) (s : EditorState) : EditorState :=
  { pushToHistory s with nodes := f s.nodes }

/-- `setEdges` with history tracking (`src/unnamed/part_006` lines 106-109),
functional-update form. -/
def setEdgesH (f : List Edge → List Edge) (s : EditorState) : EditorState :=
  { pushToHistory s with edges := f s.edges }

/-- `setNodesWithoutHistory` (`src/unnamed/part_006` lines 112-114). -/
def setNodesWithoutHistory (f : List Node → List Node) (s : EditorState) :
    EditorState :=
  { s with nodes := f s.nodes }

/-- `updateWorkflow`: batch nodes+edges update as a single history entry
(`src/unnamed/part_006` lines 122-126). -/
def updateWorkflow (ns : List Node) (es : List Edge) (s : EditorState) :
    EditorState :=
  { pushToHistory s with nodes := ns, edges := es }

/-- `undo` (`src/unnamed/part_006` lines 129-147): no-op on empty `past`;
otherwise pop the top of `past`, push the current state onto `future`,
restore the popped entry. -/
def undoOp (s : EditorState) : EditorState :=
  match s.past.getLast? with
  | none => s
  | some prev =>
      { s with
        past := s.past.dropLast
        future := s.future ++ [s.cur]
        nodes := prev.nodes
        edges := prev.edges }

/-- `redo` (`src/unnamed/part_006` lines 150-168): symmetric inverse of
`undo` on the `future` stack. -/
def redoOp (s : EditorState) : EditorState :=
  match s.future.getLast? with
  | none => s
  | some next =>
      { s with
        future := s.future.dropLast
        past := s.past ++ [s.cur]
        nodes := next.nodes
        edges := next.edges }

/-! ## WorkflowEditor mutation handlers -/

/-- A React Flow `NodeChange` as far as the editor inspects it: the
editor only looks at `type === 'position'`, the `dragging` flag and the
optional new `position`; every other change kind is `other`. -/
inductive NodeChange
  | position (id : String) (pos : Option Pos) (dragging : Option Bool)
  | other
deriving DecidableEq, Repr

/-- Modelled from the spec: the external canvas library's
`applyNodeChanges` applies position deltas to the node list — a
`position` change carrying a new position updates the matching node's
`position`; changes without a position payload (drag-state-only events)
and non-position changes leave the nodes untouched. -/
def applyNodeChanges (changes : List NodeChange) (nodes : List Node) :
    List Node :=
  changes.foldl
    (fun ns c =>
      match c with
      | .position id (some p) _ =>
          ns.map (fun n => if n.id = id then { n with position := p } else n)
      | _ => ns)
    nodes

/-- `changes.some(c => c.type === 'position' && 'dragging' in c &&
c.dragging === true)` (`WorkflowEditor.tsx` line 203). -/
def hasDragStart (changes : List NodeChange) : Bool :=
  changes.any fun c =>
    match c with
    | .position _ _ (some true) => true
    | _ => false

/-- `changes.some(c => c.type === 'position' && 'dragging' in c &&
c.dragging === false)` (`WorkflowEditor.tsx` line 204). -/
def hasDragEnd (changes : List NodeChange) : Bool :=
  changes.any fun c =>
    match c with
    | .position _ _ (some false) => true
    | _ => false

/-- `onNodesChange` (`WorkflowEditor.tsx` lines 202-219): snapshot once at
drag start (`dragging` flipping false→true while `isDraggingRef` is
unset), apply all changes without history, clear the flag at drag end. -/
def onNodesChangeOp (changes : List NodeChange) (s : EditorState) :
    EditorState :=
  let s₁ :=
    if hasDragStart changes ∧ ¬ s.isDragging then
      { takeSnapshot s with isDragging := true }
    else s
  let s₂ := setNodesWithoutHistory (applyNodeChanges changes) s₁
  if hasDragEnd changes then { s₂ with isDragging := false } else s₂

/-- Record an `onChange` invocation (`onChange?.({nodes, edges})`). -/
def emitChange (w : HistoryState) (s : EditorState) : EditorState :=
  { s with emitted := s.emitted ++ [w] }

/-- `handleInternalDelete` (`WorkflowEditor.tsx` lines 253-262): drop the
node, drop every edge whose `source` or `target` is the node, commit both
through `updateWorkflow` (one history entry), emit `onChange`. -/
def handleInternalDelete (nodeId : String) (s : EditorState) : EditorState :=
  let newNodes := s.nodes.filter (fun n => n.id ≠ nodeId)
  let newEdges := s.edges.filter (fun e => e.source ≠ nodeId ∧ e.target ≠ nodeId)
  emitChange ⟨newNodes, newEdges⟩ (updateWorkflow newNodes newEdges s)

/-- JS `x || null` on an optional string: the empty string is falsy. -/
def orNull : Option String → Option String
  | some h => if h = "" then none else some h
  | none => none

/-- `completePendingConnection` (`WorkflowEditor.tsx` lines 469-506):
warn and return when no connection is pending; otherwise append one node
at the pending position and one edge from the pending source, commit both
via `updateWorkflow`, clear the pending state, emit `onChange`. -/
def completePendingConnectionOp (nodeId nodeType : String)
    (nodeData : NodeData) (s : EditorState) : EditorState :=
  match s.pending with
  | none => { s with warnings := s.warnings + 1 }
  | some pc =>
      let newNode : Node := ⟨nodeId, some nodeType, pc.position, nodeData⟩
      let newNodes := s.nodes ++ [newNode]
      let newEdge : Edge :=
        ⟨"e" ++ pc.sourceNodeId ++ "-" ++ nodeId, pc.sourceNodeId, nodeId,
          orNull pc.sourceHandle, none⟩
      let newEdges := s.edges ++ [newEdge]
      emitChange ⟨newNodes, newEdges⟩
        { updateWorkflow newNodes newEdges s with pending := none }

/-- `addNode` (`WorkflowEditor.tsx` lines 634-649): append the node via
history-recording `setNodes` and emit `onChange`.  There is no
duplicate-id check. -/
def addNodeOp (nodeId nodeType : String) (position : Pos)
    (nodeData : NodeData) (s : EditorState) : EditorState :=
  let newNode : Node := ⟨nodeId, some nodeType, position, nodeData⟩
  let newNodes := s.nodes ++ [newNode]
  emitChange ⟨newNodes, s.edges⟩ (setNodesH (fun _ => newNodes) s)

/-- A connection handed to `onConnect` (React Flow `Connection`:
`source`/`target` are node ids, handles may be null). -/
structure Connection where
  source : String
  target : String
  sourceHandle : Option String := none
  targetHandle : Option String := none
deriving DecidableEq, Repr

/-- The edge id generated for a connection, following the external
canvas library's `source`/`handle`/`target` naming pattern. -/
def mkConnEdgeId (conn : Connection) : String :=
  "xy-edge__" ++ conn.source ++ (conn.sourceHandle.getD "") ++ "-" ++
    conn.target ++ (conn.targetHandle.getD "")

/-- The edge a connection turns into. -/
def mkConnEdge (conn : Connection) : Edge :=
  ⟨mkConnEdgeId conn, conn.source, conn.target, conn.sourceHandle,
    conn.targetHandle⟩

/-- Modelled from the spec: the Graph Model's `addEdge(edge)` appends an
edge and fails with `DuplicateIdError` on id collision (§4.1), every
failure degrading to "operation ignored, prior state preserved" (§7); it
"does not itself forbid self-loops or parallel edges".  This stands in
for the external canvas library's `addEdge` helper, whose source is not
part of this repository: since the generated id is a function of the
connection's endpoints and handles, an id collision is exactly a repeated
connection, which the operation declines to add. -/
def addEdgeLib (conn : Connection) (edges : List Edge) : List Edge :=
  if edges.any (fun e => e.id = mkConnEdgeId conn) then edges
  else edges ++ [mkConnEdge conn]

/-- `onConnect` in `WorkflowEditor.tsx` (lines 285-292): append the edge
via the library `addEdge`, record history through `setEdges`, emit
`onChange`.  No validation of any kind is performed here. -/
def editorOnConnect (conn : Connection) (s : EditorState) : EditorState :=
  let newEdges := addEdgeLib conn s.edges
  emitChange ⟨s.nodes, newEdges⟩ (setEdgesH (fun _ => newEdges) s)

/-! ## The history-recording mutations of claim C1 -/

/-- A history-recording mutation in the sense of claim C1: `setNodes`,
`setEdges`, `updateWorkflow`, or `takeSnapshot` followed by
history-bypassing position changes (the drag pattern). -/
inductive Mutation
  | msetNodes (f : List Node → List Node)
  | msetEdges (f : List Edge → List Edge)
  | mupdateWorkflow (ns : List Node) (es : List Edge)
  | msnapshotThenPositions (changes : List NodeChange)

/-- Apply a `Mutation` to the editor state via the hook's operations. -/
def applyMutation : Mutation → EditorState → EditorState
  | .msetNodes f, s => setNodesH f s
  | .msetEdges f, s => setEdgesH f s
  | .mupdateWorkflow ns es, s => updateWorkflow ns es s
  | .msnapshotThenPositions cs, s =>
      setNodesWithoutHistory (applyNodeChanges cs) (takeSnapshot s)

/-! ## Canvas component -/

/-- Edge validation options (`EdgeValidation` in
`src/packages/editor/src/types/index.ts`).  An absent `edgeValidation`
prop behaves exactly like the all-default record (`undefined` fields are
falsy), so the embedding uses the record with defaults. -/
structure EdgeValidation where
  allowSelfConnections : Bool := false
  allowDuplicates : Bool := false
  customValidator : Option (Connection → List Node → List Edge → Bool) := none

/-- Observable state of a `Canvas` session (`Canvas.tsx`): plain
nodes/edges state (no history), pending connection, `onChange` payloads
and `console.warn` count. -/
structure CanvasState where
  nodes : List Node
  edges : List Edge
  pending : Option PendingConnection
  emitted : List HistoryState
  warnings : Nat
deriving Repr

/-- `onConnect` in `Canvas.tsx` (lines 233-289): reject self-connections
unless allowed, reject exact duplicates (same source, target and both
handles) unless allowed, give an injected custom validator veto power;
each rejection is a warning with no mutation.  Otherwise commit the new
edge via the library `addEdge` and emit `onChange`. -/
def canvasOnConnect (cfg : EdgeValidation) (conn : Connection)
    (s : CanvasState) : CanvasState :=
  if ¬ cfg.allowSelfConnections ∧ conn.source = conn.target then
    { s with warnings := s.warnings + 1 }
  else if ¬ cfg.allowDuplicates ∧
      s.edges.any (fun e =>
        e.source = conn.source ∧ e.target = conn.target ∧
        e.sourceHandle = conn.sourceHandle ∧
        e.targetHandle = conn.targetHandle) then
    { s with warnings := s.warnings + 1 }
  else if (match cfg.customValidator with
           | some v => v conn s.nodes s.edges
           | none => true) = false then
    { s with warnings := s.warnings + 1 }
  else
    let newEdges := addEdgeLib conn s.edges
    { s with edges := newEdges, emitted := s.emitted ++ [⟨s.nodes, newEdges⟩] }

/-- `completePendingConnection` in `Canvas.tsx` (lines 369-404): warn and
return when nothing is pending; otherwise append one node and one edge,
clear the pending state, emit `onChange`. -/
def canvasCompletePending (nodeId nodeType : String) (nodeData : NodeData)
    (s : CanvasState) : CanvasState :=
  match s.pending with
  | none => { s with warnings := s.warnings + 1 }
  | some pc =>
      let newNode : Node := ⟨nodeId, some nodeType, pc.position, nodeData⟩
      let newNodes := s.nodes ++ [newNode]
      let newEdge : Edge :=
        ⟨"e" ++ pc.sourceNodeId ++ "-" ++ nodeId, pc.sourceNodeId, nodeId,
          orNull pc.sourceHandle, none⟩
      let newEdges := s.edges ++ [newEdge]
      { s with nodes := newNodes, edges := newEdges, pending := none,
               emitted := s.emitted ++ [⟨newNodes, newEdges⟩] }

/-! ## Auto-arrange engine (`WorkflowEditor.tsx` lines 544-632)

JS plain-object records keyed by the (non-integer-like) node-id strings
iterate in insertion order, so they are embedded as association lists:
assignment to a fresh key appends, reassignment updates in place. -/

/-- Look up a key in an association list. -/
def alGet {α : Type} (m : List (String × α)) (k : String) : Option α :=
  (m.find? (fun p => p.1 = k)).map (fun p => p.2)

/-- Record assignment `m[k] = v`: update in place or append. -/
def alSet {α : Type} (m : List (String × α)) (k : String) (v : α) :
    List (String × α) :=
  if (m.find? (fun p => p.1 = k)).isSome then
    m.map (fun p => if p.1 = k then (k, v) else p)
  else m ++ [(k, v)]

/-- The adjacency-building pattern of lines 552-565: push `v` onto the
list at key `k`, creating the key on first use. -/
def alPush (m : List (String × List String)) (k v : String) :
    List (String × List String) :=
  match alGet m k with
  | none => m ++ [(k, [v])]
  | some vs => alSet m k (vs ++ [v])

/-- Build the `outgoing` and `incoming` adjacency records in one pass
over the edges (`WorkflowEditor.tsx` lines 547-565). -/
def buildAdj (edges : List Edge) :
    List (String × List String) × List (String × List String) :=
  edges.foldl
    (fun (acc : List (String × List String) × List (String × List String)) e =>
      (alPush acc.1 e.source e.target, alPush acc.2 e.target e.source))
    ([], [])

/-- The BFS level-assignment loop (`WorkflowEditor.tsx` lines 573-590):
FIFO queue of `(id, level)` pairs; a dequeued id already visited is
skipped, otherwise it is marked visited, assigned
`max(levels[id] ?? 0, level)`, and its children that are node ids are
enqueued at `level + 1`.  The loop dequeues at most once per enqueue, and
enqueues happen only for the initial roots and on the first visit of each
node (bounded by the total out-degree), so `fuel = roots + nodes + edges`
iterations always drain the queue. -/
def bfsLevels : Nat → List (String × Nat) → List String →
    List (String × Nat) → List (String × List String) → List String →
    List (String × Nat)
  | 0, _, _, levels, _, _ => levels
  | _ + 1, [], _, levels, _, _ => levels
  | fuel + 1, (id, level) :: rest, visited, levels, out, nodeIds =>
      if visited.contains id then
        bfsLevels fuel rest visited levels out nodeIds
      else
        let visited' := visited ++ [id]
        let levels' := alSet levels id (Nat.max ((alGet levels id).getD 0) level)
        let children := ((alGet out id).getD []).filter nodeIds.contains
        bfsLevels fuel (rest ++ children.map (fun c => (c, level + 1)))
          visited' levels' out nodeIds

/-- The complete level assignment of `autoArrange` (lines 547-597): BFS
from all indegree-0 roots, then default every unassigned node to level 0
(in node-list order).  Only node ids are ever consulted, so the
computation is over the id list. -/
def levelsOf (ids : List String) (edges : List Edge) : List (String × Nat) :=
  let adj := buildAdj edges
  let roots := ids.filter (fun i => ((alGet adj.2 i).getD []).isEmpty)
  let fuel := roots.length + ids.length + edges.length + 1
  let levels := bfsLevels fuel (roots.map (fun i => (i, 0))) [] [] adj.1 ids
  ids.foldl
    (fun ls i => if (alGet ls i).isSome then ls else ls ++ [(i, 0)])
    levels

/-- Group node ids by level (`WorkflowEditor.tsx` lines 599-608),
iterating the `levels` record in insertion order; the group record is
keyed by the level number. -/
def levelGroups (levels : List (String × Nat)) : List (Nat × List String) :=
  levels.foldl
    (fun gs p =>
      match (gs.find? (fun g => g.1 = p.2)).map (fun g => g.2) with
      | none => gs ++ [(p.2, [p.1])]
      | some vs => gs.map (fun g => if g.1 = p.2 then (p.2, vs ++ [p.1]) else g))
    []

/-- Position assigned to the node with the given id
(`WorkflowEditor.tsx` lines 610-628): `x = level * (nodeWidth + hGap)`,
`y = indexWithinLevel * (nodeHeight + vGap)`; JS `indexOf` yields `-1`
when the id is missing from its group. -/
def arrangePos (ids : List String) (edges : List Edge) (nodeId : String) :
    Pos :=
  let levels := levelsOf ids edges
  let groups := levelGroups levels
  let level := (alGet levels nodeId).getD 0
  let nodesAtLevel := ((groups.find? (fun g => g.1 = level)).map
    (fun g => g.2)).getD [nodeId]
  let indexAtLevel : Int :=
    match nodesAtLevel.findIdx? (fun i => i = nodeId) with
    | some i => (i : Int)
    | none => -1
  ⟨(level : Int) * (150 + 100), indexAtLevel * (60 + 50)⟩

/-- The pure layout function of `autoArrange` (lines 616-628): every node
keeps its identity and data but receives the freshly computed position. -/
def arrangedNodes (nodes : List Node) (edges : List Edge) : List Node :=
  nodes.map (fun n =>
    { n with position := arrangePos (nodes.map (fun m => m.id)) edges n.id })

/-- The `autoArrange` editor action (lines 544-632): no-op on an empty
graph; otherwise commit the re-laid-out nodes through history-recording
`setNodes` and emit `onChange`. -/
def autoArrangeOp (s : EditorState) : EditorState :=
  if s.nodes.isEmpty then s
  else
    let newNodes := arrangedNodes s.nodes s.edges
    emitChange ⟨newNodes, s.edges⟩ (setNodesH (fun _ => newNodes) s)

/-! ## History lemmas -/

theorem pushTrim_getLast? (max : Nat) (past : List HistoryState)
    (cur : HistoryState) : (pushTrim max past cur).getLast? = some cur := by
  simp only [pushTrim]
  split_ifs with h1 h2
  · simp
  · have hk : (past ++ [cur]).length - max ≤ past.length := by
      simp only [List.length_append, List.length_singleton]
      omega
    rw [List.drop_append_of_le_length hk]
    simp
  · simp

/-- After any state-pushing mutation, `undo` restores the pre-mutation
nodes/edges and `redo` restores the post-mutation ones. -/
theorem undo_redo_after_push (s s' : EditorState)
    (hpast : s'.past = pushTrim s.maxHistory s.past s.cur)
    (hfut : s'.future = []) :
    (undoOp s').nodes = s.nodes ∧ (undoOp s').edges = s.edges ∧
    (redoOp (undoOp s')).nodes = s'.nodes ∧
    (redoOp (undoOp s')).edges = s'.edges := by
  have h1 : s'.past.getLast? = some s.cur := by
    rw [hpast]; exact pushTrim_getLast? _ _ _
  unfold undoOp
  rw [h1]
  refine ⟨rfl, rfl, ?_, ?_⟩ <;>
  · unfold redoOp
    rw [hfut]
    simp [EditorState.cur]

/-- C1: For every current workflow state and every history-recording
mutation (`setNodes`, `setEdges`, `updateWorkflow`, or `takeSnapshot`
followed by position changes), `undo()` immediately after the mutation
restores the exact pre-mutation nodes and edges, and `redo()` immediately
after that `undo()` restores the post-mutation state, so `undo(); redo()`
is the identity transform on the current nodes/edges state. -/
theorem undo_then_redo_identity (m : Mutation) (s : EditorState) :
    (undoOp (applyMutation m s)).nodes = s.nodes ∧
    (undoOp (applyMutation m s)).edges = s.edges ∧
    (redoOp (undoOp (applyMutation m s))).nodes = (applyMutation m s).nodes ∧
    (redoOp (undoOp (applyMutation m s))).edges = (applyMutation m s).edges := by
  apply undo_redo_after_push s (applyMutation m s)
  case hpast =>
    cases m <;> rfl
  case hfut =>
    cases m <;> rfl

/-! ## Concrete fixtures -/

/-- Fresh editor session state over given nodes/edges; `maxHistory = 50`
is the hook's default, which `WorkflowEditor` does not override. -/
def initES (ns : List Node) (es : List Edge) : EditorState :=
  { nodes := ns, edges := es, past := [], future := [], maxHistory := 50,
    isDragging := false, pending := none, emitted := [], warnings := 0 }

def nodeA : Node := ⟨"a", some "workflow", ⟨0, 0⟩, []⟩
def nodeB : Node := ⟨"b", some "workflow", ⟨100, 0⟩, []⟩
def nodeC : Node := ⟨"c", some "workflow", ⟨200, 0⟩, []⟩
def edgeAB : Edge := ⟨"eab", "a", "b", none, none⟩
def edgeBC : Edge := ⟨"ebc", "b", "c", none, none⟩

/-- C2: Deleting a node removes the node and every edge whose source or
target equals that id in one operation; the result contains no edge
referencing the deleted node, and a single history entry covers both
removals, so one `undo()` restores the full pre-deletion graph. -/
theorem removeNode_cascades (s : EditorState) (nodeId : String) :
    (handleInternalDelete nodeId s).nodes
        = s.nodes.filter (fun n => n.id ≠ nodeId) ∧
    (∀ n ∈ (handleInternalDelete nodeId s).nodes, n.id ≠ nodeId) ∧
    (∀ e ∈ (handleInternalDelete nodeId s).edges,
        e.source ≠ nodeId ∧ e.target ≠ nodeId) ∧
    (undoOp (handleInternalDelete nodeId s)).nodes = s.nodes ∧
    (undoOp (handleInternalDelete nodeId s)).edges = s.edges := by
  have hur := undo_redo_after_push s (handleInternalDelete nodeId s) rfl rfl
  refine ⟨rfl, ?_, ?_, hur.1, hur.2.1⟩
  · intro n hn
    have := (List.mem_filter.mp hn).2
    simpa using this
  · intro e he
    have := (List.mem_filter.mp he).2
    simpa using this

/-- C2 witness: deleting node `a` from `a→b→c` leaves the surviving edge
`b→c` free of references to `a`, and one undo restores both nodes
and edges. -/
theorem removeNode_cascades_witness :
    (edgeBC.source ≠ "a" ∧ edgeBC.target ≠ "a") ∧
    (undoOp (handleInternalDelete "a"
        (initES [nodeA, nodeB, nodeC] [edgeAB, edgeBC]))).nodes
      = [nodeA, nodeB, nodeC] ∧
    (undoOp (handleInternalDelete "a"
        (initES [nodeA, nodeB, nodeC] [edgeAB, edgeBC]))).edges
      = [edgeAB, edgeBC] :=
  ⟨(removeNode_cascades (initES [nodeA, nodeB, nodeC] [edgeAB, edgeBC])
      "a").2.2.1 edgeBC (by decide),
   (removeNode_cascades (initES [nodeA, nodeB, nodeC] [edgeAB, edgeBC])
      "a").2.2.2.1,
   (removeNode_cascades (initES [nodeA, nodeB, nodeC] [edgeAB, edgeBC])
      "a").2.2.2.2⟩

/-! ## Auto-arrange lemmas -/

theorem posmap_ids (ns : List Node) (g : String → Pos) :
    (ns.map (fun n => { n with position := g n.id })).map (fun m => m.id)
      = ns.map (fun m => m.id) := by
  rw [List.map_map]; rfl

theorem posmap_posmap (ns : List Node) (g h : String → Pos) :
    (ns.map (fun n => { n with position := g n.id })).map
        (fun n => { n with position := h n.id })
      = ns.map (fun n => { n with position := h n.id }) := by
  rw [List.map_map]; rfl

theorem posmap_positions (ns : List Node) (g : String → Pos) :
    (ns.map (fun n => { n with position := g n.id })).map (fun n => n.position)
      = (ns.map (fun m => m.id)).map g := by
  rw [List.map_map, List.map_map]; rfl

/-- C5: The auto-arrange layout is idempotent and independent of prior
positions: arranging an already-arranged graph reproduces exactly the
same node list, and any two node lists with the same id sequence (same
order) receive identical positions — the computation depends only on the
node order and the edge topology, never on the input positions. -/
theorem arrange_idempotent (ns : List Node) (es : List Edge) :
    arrangedNodes (arrangedNodes ns es) es = arrangedNodes ns es ∧
    (∀ ns' : List Node, ns'.map (fun m => m.id) = ns.map (fun m => m.id) →
      (arrangedNodes ns' es).map (fun n => n.position)
        = (arrangedNodes ns es).map (fun n => n.position)) := by
  constructor
  · simp only [arrangedNodes]
    rw [posmap_ids]
    exact posmap_posmap ns _ _
  · intro ns' h
    simp only [arrangedNodes]
    rw [posmap_positions, posmap_positions, h]

/-- C5 witness: moving the single node of a one-node graph to (5, 7) does
not change the arranged positions. -/
theorem arrange_idempotent_witness :
    ([(⟨"a", some "workflow", ⟨5, 7⟩, []⟩ : Node)].map (fun m => m.id)
        = [nodeA].map (fun m => m.id)) ∧
    (arrangedNodes [⟨"a", some "workflow", ⟨5, 7⟩, []⟩] []).map
        (fun n => n.position)
      = (arrangedNodes [nodeA] []).map (fun n => n.position) :=
  ⟨by decide,
   (arrange_idempotent [nodeA] []).2 [⟨"a", some "workflow", ⟨5, 7⟩, []⟩]
     (by decide)⟩

/-! ## BFS level assignment (claims C3, C4) -/

/-- A root-to-target path in the graph: starts at an indegree-0 node,
follows edges, ends at `target`, and stays within the node set. -/
def isRootPathTo (ids : List String) (edges : List Edge) (p : List String)
    (target : String) : Bool :=
  match p with
  | [] => false
  | first :: _ =>
      edges.all (fun e => e.target ≠ first) &&
      p.all ids.contains &&
      p.getLast? == some target &&
      (p.zip p.tail).all (fun st =>
        edges.any (fun e => e.source = st.1 ∧ e.target = st.2))

def edgeAB' : Edge := ⟨"e1", "A", "B", none, none⟩
def edgeAC' : Edge := ⟨"e2", "A", "C", none, none⟩
def edgeBD' : Edge := ⟨"e3", "B", "D", none, none⟩
def edgeCD' : Edge := ⟨"e4", "C", "D", none, none⟩
def edgeAD' : Edge := ⟨"e5", "A", "D", none, none⟩

/-- C3 counterexample: in the triangle graph `A→B, A→D, B→D` the BFS
assigns node `D` level 1 (its first-seen depth), even though the
discovered root-to-`D` path `A→B→D` has depth 2 — so the assigned level
is not the maximum of the discovered path depths. -/
theorem bfs_level_not_max_counterexample :
    isRootPathTo ["A", "B", "D"] [edgeAB', edgeAD', edgeBD'] ["A", "B", "D"]
        "D" = true ∧
    (["A", "B", "D"] : List String).length - 1 = 2 ∧
    alGet (levelsOf ["A", "B", "D"] [edgeAB', edgeAD', edgeBD']) "D"
        = some 1 ∧
    (1 : Nat) ≠ 2 := by
  decide

/-- C3 amended: the BFS assigns each node its first-seen depth — with the
FIFO queue the minimum, not the maximum, over discovered root-to-node
paths when these differ (witnessed by the triangle, where the depth-1
path `A→D` wins); the diamond `A→B, A→C, B→D, C→D` still assigns `D`
level 2 because both of its root-to-`D` paths have depth 2. -/
theorem bfs_level_first_seen_depth :
    alGet (levelsOf ["A", "B", "C", "D"]
        [edgeAB', edgeAC', edgeBD', edgeCD']) "D" = some 2 ∧
    alGet (levelsOf ["A", "B", "D"] [edgeAB', edgeAD', edgeBD']) "D"
        = some 1 ∧
    isRootPathTo ["A", "B", "D"] [edgeAB', edgeAD', edgeBD'] ["A", "D"] "D"
        = true := by
  decide

def mkNode (i : String) : Node := ⟨i, some "workflow", ⟨0, 0⟩, []⟩

def edgeBC' : Edge := ⟨"e6", "B", "C", none, none⟩

def c4Nodes : List Node := [mkNode "A", mkNode "B", mkNode "C", mkNode "D"]

def c4Edges : List Edge := [edgeAD', edgeBC']

/-- Modelled from the spec's words for comparison (claim C4): within a
level, nodes are ordered by their position in the original node list, so
a node's y-index is its rank among the input-list nodes sharing its
level. -/
def inputOrderArrangePos (ids : List String) (edges : List Edge)
    (nodeId : String) : Pos :=
  let levels := levelsOf ids edges
  let lvl := (alGet levels nodeId).getD 0
  let sameLevel := ids.filter (fun i => (alGet levels i).getD 0 = lvl)
  let idx : Int :=
    match sameLevel.findIdx? (fun i => i = nodeId) with
    | some i => (i : Int)
    | none => -1
  ⟨(lvl : Int) * (150 + 100), idx * (60 + 50)⟩

/-- C4 counterexample: with input order `[A, B, C, D]` and edges
`A→D, B→C`, nodes `C` and `D` share level 1; `C` precedes `D` in the
input list, yet auto-arrange places `D` at y-index 0 and `C` at
y-index 1 — the within-level order follows the BFS assignment order
(`D` first), not the original node-list order, contradicting the claim. -/
theorem level_order_not_input_order_counterexample :
    (arrangedNodes c4Nodes c4Edges).map (fun n => (n.id, n.position))
      = [("A", ⟨0, 0⟩), ("B", ⟨0, 110⟩), ("C", ⟨250, 110⟩),
         ("D", ⟨250, 0⟩)] ∧
    inputOrderArrangePos ["A", "B", "C", "D"] c4Edges "C" = ⟨250, 0⟩ ∧
    inputOrderArrangePos ["A", "B", "C", "D"] c4Edges "D" = ⟨250, 110⟩ ∧
    arrangePos ["A", "B", "C", "D"] c4Edges "C"
      ≠ inputOrderArrangePos ["A", "B", "C", "D"] c4Edges "C" := by
  decide

/-- C4 amended: within a level, nodes are ordered by the order in which
the BFS first assigns their level (the insertion order of the `levels`
record), not by input-list position — in the example the level-1 group is
`[D, C]` although `C` precedes `D` in the input; the output positions
remain deterministic for a given input node order and edge list,
depending only on the id sequence and the topology. -/
theorem level_order_is_bfs_assignment_order (ns ns' : List Node)
    (es : List Edge)
    (h : ns'.map (fun m => m.id) = ns.map (fun m => m.id)) :
    (arrangedNodes ns' es).map (fun n => n.position)
        = (arrangedNodes ns es).map (fun n => n.position) ∧
    levelGroups (levelsOf ["A", "B", "C", "D"] c4Edges)
        = [(0, ["A", "B"]), (1, ["D", "C"])] ∧
    (arrangedNodes c4Nodes c4Edges).map (fun n => (n.id, n.position.y))
        = [("A", 0), ("B", 110), ("C", 110), ("D", 0)] := by
  refine ⟨?_, by decide, by decide⟩
  simp only [arrangedNodes]
  rw [posmap_positions, posmap_positions, h]

/-- C4 amended witness: re-arranging the example with node `A` moved to
(9, 9) yields the same positions as the original input order. -/
theorem level_order_is_bfs_assignment_order_witness :
    (([⟨"A", some "workflow", ⟨9, 9⟩, []⟩, mkNode "B", mkNode "C",
        mkNode "D"] : List Node).map (fun m => m.id)
      = c4Nodes.map (fun m => m.id)) ∧
    (arrangedNodes [⟨"A", some "workflow", ⟨9, 9⟩, []⟩, mkNode "B",
        mkNode "C", mkNode "D"] c4Edges).map (fun n => n.position)
      = (arrangedNodes c4Nodes c4Edges).map (fun n => n.position) :=
  ⟨by decide,
   (level_order_is_bfs_assignment_order c4Nodes
      [⟨"A", some "workflow", ⟨9, 9⟩, []⟩, mkNode "B", mkNode "C",
        mkNode "D"] c4Edges (by decide)).1⟩

/-! ## Pending connection claims -/

/-- C6: With a pending connection present, `completePendingConnection`
appends exactly one new node at the pending position and exactly one new
edge from the pending source to that node, clears the pending state, and
records both changes as one history entry — a single `undo()` removes
both the node and the edge. -/
theorem complete_pending_single_unit (s : EditorState)
    (pc : PendingConnection) (nodeId nodeType : String) (nodeData : NodeData)
    (h : s.pending = some pc) :
    (completePendingConnectionOp nodeId nodeType nodeData s).nodes
        = s.nodes ++ [⟨nodeId, some nodeType, pc.position, nodeData⟩] ∧
    (completePendingConnectionOp nodeId nodeType nodeData s).edges
        = s.edges ++ [⟨"e" ++ pc.sourceNodeId ++ "-" ++ nodeId,
            pc.sourceNodeId, nodeId, orNull pc.sourceHandle, none⟩] ∧
    (completePendingConnectionOp nodeId nodeType nodeData s).pending
        = none ∧
    (undoOp (completePendingConnectionOp nodeId nodeType nodeData s)).nodes
        = s.nodes ∧
    (undoOp (completePendingConnectionOp nodeId nodeType nodeData s)).edges
        = s.edges := by
  simp only [completePendingConnectionOp, h]
  exact ⟨rfl, rfl, rfl, (undo_redo_after_push s _ rfl rfl).1,
    (undo_redo_after_push s _ rfl rfl).2.1⟩

def pcEx : PendingConnection := ⟨"a", none, ⟨42, 17⟩⟩

def pendingState : EditorState := { initES [nodeA] [] with pending := some pcEx }

/-- C6 witness: completing the pending connection of `pendingState`
appends the node and edge and one undo removes both. -/
theorem complete_pending_single_unit_witness :
    (completePendingConnectionOp "n1" "workflow" [] pendingState).nodes
        = pendingState.nodes ++ [⟨"n1", some "workflow", pcEx.position, []⟩] ∧
    (completePendingConnectionOp "n1" "workflow" [] pendingState).edges
        = pendingState.edges ++ [⟨"e" ++ pcEx.sourceNodeId ++ "-" ++ "n1",
            pcEx.sourceNodeId, "n1", orNull pcEx.sourceHandle, none⟩] ∧
    (completePendingConnectionOp "n1" "workflow" [] pendingState).pending
        = none ∧
    (undoOp (completePendingConnectionOp "n1" "workflow" [] pendingState)).nodes
        = pendingState.nodes ∧
    (undoOp (completePendingConnectionOp "n1" "workflow" [] pendingState)).edges
        = pendingState.edges :=
  complete_pending_single_unit pendingState pcEx "n1" "workflow" [] rfl

/-- C10: Without a pending connection, `completePendingConnection` is a
total no-op apart from one console warning, in both the `WorkflowEditor`
and the `Canvas` component: no node or edge is added, no history entry is
pushed, `onChange` is not invoked, and the pending state stays `none`. -/
theorem complete_pending_noop_when_none (s : EditorState) (cs : CanvasState)
    (nodeId nodeType : String) (nodeData : NodeData)
    (h : s.pending = none) (hc : cs.pending = none) :
    completePendingConnectionOp nodeId nodeType nodeData s
        = { s with warnings := s.warnings + 1 } ∧
    canvasCompletePending nodeId nodeType nodeData cs
        = { cs with warnings := cs.warnings + 1 } := by
  constructor
  · simp only [completePendingConnectionOp, h]
  · simp only [canvasCompletePending, hc]

def emptyCanvas : CanvasState :=
  { nodes := [nodeA], edges := [], pending := none, emitted := [],
    warnings := 0 }

/-- C10 witness: on states with no pending connection the call leaves
everything unchanged except the warning counter. -/
theorem complete_pending_noop_when_none_witness :
    completePendingConnectionOp "n1" "workflow" [] (initES [nodeA] [])
        = { initES [nodeA] [] with warnings :=
              (initES [nodeA] []).warnings + 1 } ∧
    canvasCompletePending "n1" "workflow" [] emptyCanvas
        = { emptyCanvas with warnings := emptyCanvas.warnings + 1 } :=
  complete_pending_noop_when_none (initES [nodeA] []) emptyCanvas
    "n1" "workflow" [] rfl rfl

/-! ## Drag gesture batching (claim C7) -/

/-- Run a sequence of `onNodesChange` batches. -/
def runGesture (batches : List (List NodeChange)) (s : EditorState) :
    EditorState :=
  batches.foldl (fun t b => onNodesChangeOp b t) s

theorem onNodesChange_step_start (b : List NodeChange) (t : EditorState)
    (ht : t.isDragging = false) (hb1 : hasDragStart b = true)
    (hb2 : hasDragEnd b = false) :
    onNodesChangeOp b t =
      { t with past := pushTrim t.maxHistory t.past t.cur, future := [],
               isDragging := true, nodes := applyNodeChanges b t.nodes } := by
  simp [onNodesChangeOp, ht, hb1, hb2, takeSnapshot, pushToHistory,
    setNodesWithoutHistory]

theorem onNodesChange_step_mid (b : List NodeChange) (t : EditorState)
    (ht : t.isDragging = true) (hb : hasDragEnd b = false) :
    onNodesChangeOp b t = { t with nodes := applyNodeChanges b t.nodes } := by
  simp [onNodesChangeOp, ht, hb, setNodesWithoutHistory]

theorem onNodesChange_step_end (b : List NodeChange) (t : EditorState)
    (ht : t.isDragging = true) (hb : hasDragEnd b = true) :
    onNodesChangeOp b t =
      { t with nodes := applyNodeChanges b t.nodes, isDragging := false } := by
  simp [onNodesChangeOp, ht, hb, setNodesWithoutHistory]

theorem runGesture_middle (middle : List (List NodeChange)) :
    ∀ t : EditorState, t.isDragging = true →
    (∀ b ∈ middle, hasDragEnd b = false) →
    (runGesture middle t).past = t.past ∧
    (runGesture middle t).future = t.future ∧
    (runGesture middle t).edges = t.edges ∧
    (runGesture middle t).maxHistory = t.maxHistory ∧
    (runGesture middle t).isDragging = true := by
  induction middle with
  | nil => exact fun t ht _ => ⟨rfl, rfl, rfl, rfl, ht⟩
  | cons b bs ih =>
      intro t ht h3
      have hb : hasDragEnd b = false := h3 b (by simp)
      have hrun : runGesture (b :: bs) t = runGesture bs (onNodesChangeOp b t) :=
        rfl
      rw [hrun, onNodesChange_step_mid b t ht hb]
      exact ih { t with nodes := applyNodeChanges b t.nodes } ht
        (fun b' hb' => h3 b' (by simp [hb']))

/-- C7: A continuous drag gesture — a batch whose `dragging` flag turns
true while no drag is active, any number of in-progress batches, and a
final batch with `dragging` false — takes exactly one history snapshot,
at the gesture start (the past stack gains exactly the pre-drag state and
the redo stack is cleared once); all later deltas bypass history, so a
single `undo()` restores the pre-drag nodes (and edges) no matter how
many intermediate move events occurred. -/
theorem drag_gesture_one_snapshot (s : EditorState)
    (start last : List NodeChange) (middle : List (List NodeChange))
    (h0 : s.isDragging = false) (h1 : hasDragStart start = true)
    (h2 : hasDragEnd start = false)
    (h3 : ∀ b ∈ middle, hasDragEnd b = false)
    (h4 : hasDragEnd last = true) :
    (runGesture ((start :: middle) ++ [last]) s).past
        = pushTrim s.maxHistory s.past s.cur ∧
    (runGesture ((start :: middle) ++ [last]) s).future = [] ∧
    (runGesture ((start :: middle) ++ [last]) s).isDragging = false ∧
    (undoOp (runGesture ((start :: middle) ++ [last]) s)).nodes = s.nodes ∧
    (undoOp (runGesture ((start :: middle) ++ [last]) s)).edges = s.edges := by
  have hsplit : runGesture ((start :: middle) ++ [last]) s
      = onNodesChangeOp last (runGesture middle (onNodesChangeOp start s)) := by
    unfold runGesture
    rw [List.foldl_append]
    rfl
  have hs₁ := onNodesChange_step_start start s h0 h1 h2
  have hmid := runGesture_middle middle (onNodesChangeOp start s)
    (by rw [hs₁]) h3
  have hend := onNodesChange_step_end last
    (runGesture middle (onNodesChangeOp start s)) hmid.2.2.2.2 h4
  have hpast : (runGesture ((start :: middle) ++ [last]) s).past
      = pushTrim s.maxHistory s.past s.cur := by
    rw [hsplit, hend]
    show (runGesture middle (onNodesChangeOp start s)).past = _
    rw [hmid.1, hs₁]
  have hfut : (runGesture ((start :: middle) ++ [last]) s).future = [] := by
    rw [hsplit, hend]
    show (runGesture middle (onNodesChangeOp start s)).future = _
    rw [hmid.2.1, hs₁]
  have hur := undo_redo_after_push s _ hpast hfut
  refine ⟨hpast, hfut, ?_, hur.1, hur.2.1⟩
  rw [hsplit, hend]

def dragStartBatch : List NodeChange :=
  [.position "a" (some ⟨10, 10⟩) (some true)]

def dragMidBatch : List NodeChange :=
  [.position "a" (some ⟨30, 30⟩) (some true)]

def dragEndBatch : List NodeChange :=
  [.position "a" (some ⟨50, 50⟩) (some false)]

/-- C7 witness: a three-event drag of node `a` from (0,0) to (50,50)
leaves one history entry and one undo restores the original state. -/
theorem drag_gesture_one_snapshot_witness :
    (runGesture ((dragStartBatch :: [dragMidBatch]) ++ [dragEndBatch])
        (initES [nodeA] [])).past
      = pushTrim (initES [nodeA] []).maxHistory (initES [nodeA] []).past
          (initES [nodeA] []).cur ∧
    (runGesture ((dragStartBatch :: [dragMidBatch]) ++ [dragEndBatch])
        (initES [nodeA] [])).future = [] ∧
    (runGesture ((dragStartBatch :: [dragMidBatch]) ++ [dragEndBatch])
        (initES [nodeA] [])).isDragging = false ∧
    (undoOp (runGesture ((dragStartBatch :: [dragMidBatch]) ++ [dragEndBatch])
        (initES [nodeA] []))).nodes = (initES [nodeA] []).nodes ∧
    (undoOp (runGesture ((dragStartBatch :: [dragMidBatch]) ++ [dragEndBatch])
        (initES [nodeA] []))).edges = (initES [nodeA] []).edges :=
  drag_gesture_one_snapshot (initES [nodeA] []) dragStartBatch dragEndBatch
    [dragMidBatch] rfl (by decide) (by decide) (by decide) (by decide)

/-! ## addNode (claim C8) -/

/-- C8 counterexample: adding a node whose id `a` already exists does not
fail and does not leave the graph unchanged — the duplicate is appended,
leaving two nodes with id `a`; no duplicate-id check exists. -/
theorem addNode_duplicate_counterexample :
    (addNodeOp "a" "workflow" ⟨1, 1⟩ [] (initES [nodeA] [])).nodes
        = [nodeA, ⟨"a", some "workflow", ⟨1, 1⟩, []⟩] ∧
    (addNodeOp "a" "workflow" ⟨1, 1⟩ [] (initES [nodeA] [])).nodes
        ≠ (initES [nodeA] []).nodes ∧
    ((addNodeOp "a" "workflow" ⟨1, 1⟩ [] (initES [nodeA] [])).nodes.map
        (fun n => n.id)) = ["a", "a"] := by
  decide

/-- C8 amended: `addNode` appends the new node unconditionally — for a
fresh id it appends, and for a colliding id it also appends (producing a
duplicate id) instead of failing; edges are untouched. -/
theorem addNode_always_appends (s : EditorState) (nodeId nodeType : String)
    (position : Pos) (nodeData : NodeData) :
    (addNodeOp nodeId nodeType position nodeData s).nodes
        = s.nodes ++ [⟨nodeId, some nodeType, position, nodeData⟩] ∧
    (addNodeOp nodeId nodeType position nodeData s).edges = s.edges :=
  ⟨rfl, rfl⟩

/-! ## Connection validation (claim C9) -/

def selfConn : Connection := ⟨"a", "a", none, none⟩

def abConn : Connection := ⟨"a", "b", none, none⟩

/-- C9 counterexample: `onConnect` in `WorkflowEditor` performs no
validation — a self-connection (`source = target`, `allowSelfConnections`
nowhere set) is not rejected: the edge is appended and no warning is
emitted, contradicting the claim for that connection handler. -/
theorem onConnect_editor_unvalidated_counterexample :
    selfConn.source = selfConn.target ∧
    (editorOnConnect selfConn (initES [nodeA] [])).edges
        = [⟨"xy-edge__a-a", "a", "a", none, none⟩] ∧
    (editorOnConnect selfConn (initES [nodeA] [])).edges
        ≠ (initES [nodeA] []).edges ∧
    (editorOnConnect selfConn (initES [nodeA] [])).warnings
        = (initES [nodeA] []).warnings := by
  decide

/-- C9 amended: the claimed validation pipeline lives in the `Canvas`
component's `onConnect`: there a self-connection is rejected (warning
only, no mutation) unless `allowSelfConnections`, an exact duplicate
(same source, target and both handles) is rejected unless
`allowDuplicates`, and a vetoing `customValidator` blocks the connection;
otherwise the connection goes to the Graph Model's `addEdge`, which
appends exactly one edge when the generated edge id is fresh and, on id
collision, fails with the edge list left unchanged.  `WorkflowEditor`'s
own `onConnect`, by contrast, applies no validation policy: it hands
every connection — self-connections included — straight to `addEdge`
with no warning. -/
theorem onConnect_validation_policy (cfg : EdgeValidation)
    (conn : Connection) (cs : CanvasState) (s : EditorState) :
    ((¬ cfg.allowSelfConnections ∧ conn.source = conn.target) →
      canvasOnConnect cfg conn cs = { cs with warnings := cs.warnings + 1 }) ∧
    (¬ (¬ cfg.allowSelfConnections ∧ conn.source = conn.target) →
     (¬ cfg.allowDuplicates ∧
        cs.edges.any (fun e =>
          e.source = conn.source ∧ e.target = conn.target ∧
          e.sourceHandle = conn.sourceHandle ∧
          e.targetHandle = conn.targetHandle)) →
      canvasOnConnect cfg conn cs = { cs with warnings := cs.warnings + 1 }) ∧
    (¬ (¬ cfg.allowSelfConnections ∧ conn.source = conn.target) →
     ¬ (¬ cfg.allowDuplicates ∧
        cs.edges.any (fun e =>
          e.source = conn.source ∧ e.target = conn.target ∧
          e.sourceHandle = conn.sourceHandle ∧
          e.targetHandle = conn.targetHandle)) →
     ((match cfg.customValidator with
       | some v => v conn cs.nodes cs.edges
       | none => true) = false) →
      canvasOnConnect cfg conn cs = { cs with warnings := cs.warnings + 1 }) ∧
    (¬ (¬ cfg.allowSelfConnections ∧ conn.source = conn.target) →
     ¬ (¬ cfg.allowDuplicates ∧
        cs.edges.any (fun e =>
          e.source = conn.source ∧ e.target = conn.target ∧
          e.sourceHandle = conn.sourceHandle ∧
          e.targetHandle = conn.targetHandle)) →
     ¬ ((match cfg.customValidator with
         | some v => v conn cs.nodes cs.edges
         | none => true) = false) →
      ((cs.edges.any (fun e => e.id = mkConnEdgeId conn) = false →
          (canvasOnConnect cfg conn cs).edges
            = cs.edges ++ [mkConnEdge conn]) ∧
       (cs.edges.any (fun e => e.id = mkConnEdgeId conn) = true →
          (canvasOnConnect cfg conn cs).edges = cs.edges) ∧
       (canvasOnConnect cfg conn cs).nodes = cs.nodes ∧
       (canvasOnConnect cfg conn cs).warnings = cs.warnings)) ∧
    ((s.edges.any (fun e => e.id = mkConnEdgeId conn) = false →
        (editorOnConnect conn s).edges = s.edges ++ [mkConnEdge conn]) ∧
     (s.edges.any (fun e => e.id = mkConnEdgeId conn) = true →
        (editorOnConnect conn s).edges = s.edges) ∧
     (editorOnConnect conn s).warnings = s.warnings) := by
  refine ⟨?_, ?_, ?_, ?_, ?_, ?_, rfl⟩
  · intro h1
    unfold canvasOnConnect
    rw [if_pos h1]
  · intro h1 h2
    unfold canvasOnConnect
    rw [if_neg h1, if_pos h2]
  · intro h1 h2 h3
    unfold canvasOnConnect
    rw [if_neg h1, if_neg h2, if_pos h3]
  · intro h1 h2 h3
    unfold canvasOnConnect
    rw [if_neg h1, if_neg h2, if_neg h3]
    refine ⟨?_, ?_, rfl, rfl⟩
    · intro hfresh
      show addEdgeLib conn cs.edges = _
      simp [addEdgeLib, hfresh]
    · intro hdup
      show addEdgeLib conn cs.edges = _
      simp [addEdgeLib, hdup]
  · intro hfresh
    show addEdgeLib conn s.edges = _
    simp [addEdgeLib, hfresh]
  · intro hdup
    show addEdgeLib conn s.edges = _
    simp [addEdgeLib, hdup]

def twoNodeCanvas : CanvasState :=
  { nodes := [nodeA, nodeB], edges := [], pending := none, emitted := [],
    warnings := 0 }

/-- C9 amended witness: with default validation options, the self
connection `a→a` on the canvas is rejected with only a warning, while the
valid connection `a→b` — whose generated id is fresh — appends exactly
one edge. -/
theorem onConnect_validation_policy_witness :
    canvasOnConnect {} selfConn twoNodeCanvas
        = { twoNodeCanvas with warnings := twoNodeCanvas.warnings + 1 } ∧
    (canvasOnConnect {} abConn twoNodeCanvas).edges
        = twoNodeCanvas.edges ++ [mkConnEdge abConn] :=
  ⟨(onConnect_validation_policy {} selfConn twoNodeCanvas
      (initES [] [])).1 (by decide),
   ((onConnect_validation_policy {} abConn twoNodeCanvas
      (initES [] [])).2.2.2.1 (by decide) (by decide) (by decide)).1
     (by decide)⟩
